import Mathlib

/-!
Verification development for the transform-math and frame-update core of
`draw_scene.cc` (vfragoso/textures).

GLfloat arithmetic is modelled by the real numbers; Eigen fixed-size
matrices are modelled by Mathlib matrices over ℝ.  Each definition below
embeds one function (or one inlined code region) of the source file.
-/

open Matrix Real Filter

/-- Vector of three scalars, modelling `Eigen::Vector3f`. -/
structure Vec3 where
  x : ℝ
  y : ℝ
  z : ℝ

/-- Modelling `Eigen::Vector3f::homogeneous()`: append a 1 as fourth coordinate. -/
def Vec3.homogeneous (v : Vec3) : Fin 4 → ℝ := ![v.x, v.y, v.z, 1]

/-- Modelling `Eigen::Vector3f::normalized()`: divide every component by the
Euclidean norm of the vector. -/
noncomputable def Vec3.normalized (v : Vec3) : Vec3 :=
  ⟨v.x / Real.sqrt (v.x ^ 2 + v.y ^ 2 + v.z ^ 2),
   v.y / Real.sqrt (v.x ^ 2 + v.y ^ 2 + v.z ^ 2),
   v.z / Real.sqrt (v.x ^ 2 + v.y ^ 2 + v.z ^ 2)⟩

/-- Embeds `ComputeTranslation` (draw_scene.cc, lines 207-212): start from
`Eigen::Matrix4f::Identity()` and overwrite column 3 with
`offset.homogeneous()`. -/
noncomputable def ComputeTranslation (offset : Vec3) : Matrix (Fin 4) (Fin 4) ℝ :=
  Matrix.updateColumn (1 : Matrix (Fin 4) (Fin 4) ℝ) 3 offset.homogeneous

/-- Embeds `Eigen::AngleAxisf(angle, axis).matrix()` as used by
`ComputeRotation`: Eigen's `AngleAxis::toRotationMatrix`, which uses the
stored axis as given (without normalizing it) in the Rodrigues formula
with `c = cos angle` and `s = sin angle`. -/
noncomputable def toRotationMatrix (axis : Vec3) (angle : ℝ) : Matrix (Fin 3) (Fin 3) ℝ :=
  let c := Real.cos angle
  let s := Real.sin angle
  !![(1 - c) * axis.x * axis.x + c,
     (1 - c) * axis.x * axis.y - s * axis.z,
     (1 - c) * axis.x * axis.z + s * axis.y;
     (1 - c) * axis.x * axis.y + s * axis.z,
     (1 - c) * axis.y * axis.y + c,
     (1 - c) * axis.y * axis.z - s * axis.x;
     (1 - c) * axis.x * axis.z - s * axis.y,
     (1 - c) * axis.y * axis.z + s * axis.x,
     (1 - c) * axis.z * axis.z + c]

/-- Embeds `ComputeRotation` (draw_scene.cc, lines 214-221): an identity 4×4
matrix whose upper-left 3×3 block is overwritten with
`Eigen::AngleAxisf(angle, axis).matrix()`. -/
noncomputable def ComputeRotation (axis : Vec3) (angle : ℝ) : Matrix (Fin 4) (Fin 4) ℝ :=
  let R := toRotationMatrix axis angle
  !![R 0 0, R 0 1, R 0 2, 0;
     R 1 0, R 1 1, R 1 2, 0;
     R 2 0, R 2 1, R 2 2, 0;
     0, 0, 0, 1]

/-- Embeds the general six-parameter `ComputeProjectionMatrix`
(draw_scene.cc, lines 224-241): identity with the listed entries
overwritten, including `projection(3, 3) = 0`. -/
noncomputable def ComputeProjectionMatrix
    (left right top bottom near far : ℝ) : Matrix (Fin 4) (Fin 4) ℝ :=
  !![2 * near / (right - left), 0, (right + left) / (right - left), 0;
     0, 2 * near / (top - bottom), (top + bottom) / (top - bottom), 0;
     0, 0, -(far + near) / (far - near), -2 * far * near / (far - near);
     0, 0, -1, 0]

/-- Embeds `kHalfPi` (draw_scene.cc, line 247): `0.5f * M_PI`. -/
noncomputable def kHalfPi : ℝ := 0.5 * Real.pi

/-- Embeds `ComputeCotangent` (draw_scene.cc, lines 255-257):
`tan(kHalfPi - angle)`. -/
noncomputable def ComputeCotangent (angle : ℝ) : ℝ := Real.tan (kHalfPi - angle)

/-- Embeds the four-parameter FOV reparametrization of
`ComputeProjectionMatrix` (draw_scene.cc, lines 261-279). -/
noncomputable def ComputeProjectionMatrixFov
    (field_of_view aspect near far : ℝ) : Matrix (Fin 4) (Fin 4) ℝ :=
  let y_scale := ComputeCotangent (0.5 * field_of_view)
  let x_scale := y_scale / aspect
  let planes_distance := far - near
  let z_scale := -(near + far) / planes_distance
  let homogeneous_scale := -2 * near * far / planes_distance
  !![x_scale, 0, 0, 0;
     0, y_scale, 0, 0;
     0, 0, z_scale, homogeneous_scale;
     0, 0, -1, 0]

/-- Upper-left 3×3 block of a 4×4 matrix (Eigen's `block(0, 0, 3, 3)`). -/
def upperLeft3 (M : Matrix (Fin 4) (Fin 4) ℝ) : Matrix (Fin 3) (Fin 3) ℝ :=
  fun i j => M (Fin.castSucc i) (Fin.castSucc j)

/-- Embeds the `Model` class (draw_scene.cc, lines 119-198): orientation,
position, the 8×4 interleaved vertex matrix and the index list. -/
structure Model where
  orientation : Vec3
  position : Vec3
  vertices : Matrix (Fin 8) (Fin 4) ℝ
  indices : List ℕ

/-- Embeds the matrix computations of `RenderScene` (draw_scene.cc,
lines 445-495): translation by `(0, 0, -5)`, rotation about the normalized
axis `(0, 1, 0)` by `angle`, model = translation * rotation, view =
identity; the projection matrix is passed in unchanged.  Returns the
(model, view, projection) triple forwarded to the GPU uniforms. -/
noncomputable def RenderScene (projection : Matrix (Fin 4) (Fin 4) ℝ) (angle : ℝ) :
    Matrix (Fin 4) (Fin 4) ℝ × Matrix (Fin 4) (Fin 4) ℝ × Matrix (Fin 4) (Fin 4) ℝ :=
  let translation := ComputeTranslation ⟨0, 0, -5⟩
  let rotation := ComputeRotation (Vec3.normalized ⟨0, 1, 0⟩) angle
  let model := translation * rotation
  let view := (1 : Matrix (Fin 4) (Fin 4) ℝ)
  (model, view, projection)

/-- Embeds `rotation_speed` (draw_scene.cc, line 606): 50 degrees/second. -/
noncomputable def rotation_speed : ℝ := 50

/-- Embeds the per-frame angle update (draw_scene.cc, line 611):
`angle = speed * elapsed * M_PI / 180.f`. -/
noncomputable def frameAngle (speed elapsed : ℝ) : ℝ :=
  speed * elapsed * Real.pi / 180

/-- State carried across iterations of the render loop: the scene's `Model`
object and the session-local `angle` variable of `main`. -/
structure LoopState where
  model : Model
  angle : ℝ

/-- Embeds one iteration of the render loop (draw_scene.cc, lines 607-620):
recompute `angle` from the elapsed wall-clock time, then call `RenderScene`
with the precomputed projection matrix.  Returns the updated loop state and
the (model, view, projection) matrices produced for the frame. -/
noncomputable def loopIteration (s : LoopState) (projection : Matrix (Fin 4) (Fin 4) ℝ)
    (elapsed : ℝ) :
    LoopState ×
      (Matrix (Fin 4) (Fin 4) ℝ × Matrix (Fin 4) (Fin 4) ℝ × Matrix (Fin 4) (Fin 4) ℝ) :=
  let angle := frameAngle rotation_speed elapsed
  ({ s with angle := angle }, RenderScene projection angle)

/-- Embeds `kWindowWidth` (draw_scene.cc, line 94): a C++ `int`. -/
def kWindowWidth : ℤ := 640

/-- Embeds `kWindowHeight` (draw_scene.cc, line 95): a C++ `int`. -/
def kWindowHeight : ℤ := 480

/-- Embeds `field_of_view` (draw_scene.cc, line 598): the literal `45.0f`. -/
noncomputable def field_of_view : ℝ := 45

/-- Embeds `aspect_ratio` (draw_scene.cc, line 599): the `int` quotient
`kWindowWidth / kWindowHeight`, converted to `GLfloat` only after the
integer division. -/
noncomputable def setupAspect : ℝ := ((kWindowWidth / kWindowHeight : ℤ) : ℝ)

/-- Embeds `projection_matrix` (draw_scene.cc, lines 600-601): the matrix
computed once at setup. -/
noncomputable def projection_matrix : Matrix (Fin 4) (Fin 4) ℝ :=
  ComputeProjectionMatrixFov field_of_view setupAspect 0.1 10

/-- Clip-space coordinates of the view-space point `(x, y, z, 1)` under a
projection matrix `M`. -/
noncomputable def clipCoords (M : Matrix (Fin 4) (Fin 4) ℝ) (x y z : ℝ) : Fin 4 → ℝ :=
  M.mulVec ![x, y, z, 1]

/-- Normalized-device coordinate `i` after the homogeneous divide. -/
noncomputable def ndc (M : Matrix (Fin 4) (Fin 4) ℝ) (x y z : ℝ) (i : Fin 4) : ℝ :=
  clipCoords M x y z i / clipCoords M x y z 3

/-! ## Helper lemmas -/

/-- Explicit entries of `ComputeTranslation`: the identity with its last
column replaced by the homogeneous offset. -/
theorem ComputeTranslation_eq (o : Vec3) :
    ComputeTranslation o =
      !![1, 0, 0, o.x; 0, 1, 0, o.y; 0, 0, 1, o.z; 0, 0, 0, 1] := by
  funext i j
  fin_cases i <;> fin_cases j <;>
    simp [ComputeTranslation, Matrix.updateColumn_apply, Vec3.homogeneous,
      Matrix.one_apply, Matrix.vecHead, Matrix.vecTail]

/-! ## Claim theorems -/

/-- C6: for every offset `o`, `ComputeTranslation o` is the 4×4 identity with
its last column replaced by `[o.x, o.y, o.z, 1]`; it maps the homogeneous
origin to `[o.x, o.y, o.z, 1]` and adds `o` to the first three coordinates of
any homogeneous point, leaving the fourth coordinate 1 unchanged. -/
theorem C6_translation_matrix (o : Vec3) (p1 p2 p3 : ℝ) :
    ComputeTranslation o =
        !![1, 0, 0, o.x; 0, 1, 0, o.y; 0, 0, 1, o.z; 0, 0, 0, 1] ∧
    (ComputeTranslation o).mulVec ![0, 0, 0, 1] = ![o.x, o.y, o.z, 1] ∧
    (ComputeTranslation o).mulVec ![p1, p2, p3, 1] =
        ![p1 + o.x, p2 + o.y, p3 + o.z, 1] := by
  refine ⟨ComputeTranslation_eq o, ?_, ?_⟩ <;>
  · funext i
    fin_cases i <;>
      simp [ComputeTranslation_eq, Matrix.mulVec, Matrix.dotProduct,
        Fin.sum_univ_four]

/-- C7: the per-frame angle is `speed * elapsed * (π/180)`, a pure function of
the elapsed wall-clock time; at `speed = 50` deg/s and `elapsed = 1` s it is
`50·π/180`, and the render loop stores exactly this value for
`rotation_speed = 50`. -/
theorem C7_frame_angle :
    (∀ speed elapsed : ℝ,
        frameAngle speed elapsed = speed * elapsed * (Real.pi / 180)) ∧
    frameAngle 50 1 = 50 * (Real.pi / 180) ∧
    (∀ (s : LoopState) (P : Matrix (Fin 4) (Fin 4) ℝ) (elapsed : ℝ),
        ((loopIteration s P elapsed).1).angle = 50 * elapsed * (Real.pi / 180)) := by
  refine ⟨fun speed elapsed => by unfold frameAngle; ring,
          by unfold frameAngle; ring,
          fun s P elapsed => ?_⟩
  show frameAngle rotation_speed elapsed = 50 * elapsed * (Real.pi / 180)
  unfold frameAngle rotation_speed
  ring

/-- C9: one iteration of the render loop leaves the renderable entity
unchanged — orientation, position, geometry and indices after the iteration
equal their values before it; only the session-local `angle` is updated. -/
theorem C9_loop_preserves_entity (s : LoopState) (P : Matrix (Fin 4) (Fin 4) ℝ)
    (elapsed : ℝ) :
    ((loopIteration s P elapsed).1).model = s.model ∧
    ((loopIteration s P elapsed).1).model.orientation = s.model.orientation ∧
    ((loopIteration s P elapsed).1).model.position = s.model.position ∧
    ((loopIteration s P elapsed).1).model.vertices = s.model.vertices ∧
    ((loopIteration s P elapsed).1).model.indices = s.model.indices :=
  ⟨rfl, rfl, rfl, rfl, rfl⟩

/-- Normalizing the axis `(0, 1, 0)` leaves it unchanged. -/
theorem normalized_unit_y : Vec3.normalized ⟨0, 1, 0⟩ = ⟨0, 1, 0⟩ := by
  unfold Vec3.normalized
  norm_num

/-- Rotation about `(0, 1, 0)` by `π/2` as built by Eigen's Rodrigues formula. -/
theorem toRotationMatrix_y_halfpi :
    toRotationMatrix ⟨0, 1, 0⟩ (Real.pi / 2) = !![0, 0, 1; 0, 1, 0; -1, 0, 0] := by
  funext i j
  fin_cases i <;> fin_cases j <;>
    simp [toRotationMatrix, Real.cos_pi_div_two, Real.sin_pi_div_two]

/-- The induced 4×4 rotation about `(0, 1, 0)` by `π/2`. -/
theorem ComputeRotation_y_halfpi :
    ComputeRotation ⟨0, 1, 0⟩ (Real.pi / 2) =
      !![0, 0, 1, 0; 0, 1, 0, 0; -1, 0, 0, 0; 0, 0, 0, 1] := by
  funext i j
  fin_cases i <;> fin_cases j <;>
    simp [ComputeRotation, toRotationMatrix_y_halfpi, Matrix.vecHead,
      Matrix.vecTail]

/-- C1: the per-frame model matrix is translation-after-rotation,
`model = ComputeTranslation (0,0,-5) * ComputeRotation (axis, angle)`, and for
axis `(0,1,0)`, angle `π/2` the composed matrix sends the homogeneous point
`(1,0,0,1)` to `(0,0,-6,1)`. -/
theorem C1_model_composition (angle : ℝ) (P : Matrix (Fin 4) (Fin 4) ℝ) :
    (RenderScene P angle).1 =
        ComputeTranslation ⟨0, 0, -5⟩ *
          ComputeRotation (Vec3.normalized ⟨0, 1, 0⟩) angle ∧
    (RenderScene P (Real.pi / 2)).1.mulVec ![1, 0, 0, 1] = ![0, 0, -6, 1] := by
  refine ⟨rfl, ?_⟩
  have h1 : (RenderScene P (Real.pi / 2)).1 =
      ComputeTranslation ⟨0, 0, -5⟩ * ComputeRotation ⟨0, 1, 0⟩ (Real.pi / 2) := by
    show ComputeTranslation ⟨0, 0, -5⟩ *
          ComputeRotation (Vec3.normalized ⟨0, 1, 0⟩) (Real.pi / 2) =
        ComputeTranslation ⟨0, 0, -5⟩ * ComputeRotation ⟨0, 1, 0⟩ (Real.pi / 2)
    rw [normalized_unit_y]
  rw [h1, ← Matrix.mulVec_mulVec, ComputeRotation_y_halfpi, ComputeTranslation_eq]
  funext i
  fin_cases i <;>
    norm_num [Matrix.mulVec, Matrix.dotProduct, Fin.sum_univ_four]

/-- C10: at setup the aspect ratio handed to the FOV-form projection is
exactly 1, because `kWindowWidth / kWindowHeight` is an integer division
evaluated before the conversion to float; the field-of-view argument is the
unconverted literal 45, so the setup matrix is
`ComputeProjectionMatrixFov 45 1 0.1 10` — its parameters are not those of a
45-degree (radian-converted), 4:3 frustum. -/
theorem C10_setup_projection :
    setupAspect = 1 ∧
    projection_matrix = ComputeProjectionMatrixFov 45 1 0.1 10 ∧
    field_of_view ≠ 45 * (Real.pi / 180) ∧
    setupAspect ≠ (640 : ℝ) / 480 := by
  have h0 : (kWindowWidth / kWindowHeight : ℤ) = 1 := by decide
  have ha : setupAspect = 1 := by
    unfold setupAspect
    rw [h0]
    norm_num
  refine ⟨ha, ?_, ?_, ?_⟩
  · unfold projection_matrix field_of_view
    rw [ha]
  · unfold field_of_view
    intro h
    have hpi : Real.pi ≤ 4 := Real.pi_le_four
    linarith
  · rw [ha]
    norm_num

/-- C8: `ComputeCotangent angle` equals `tan (π/2 - angle)`; it vanishes at
`π/2`; and it tends to `+∞` as `angle → 0⁺` (it inherits `tan`'s pole rather
than failing). -/
theorem C8_cotangent :
    (∀ angle : ℝ, ComputeCotangent angle = Real.tan (Real.pi / 2 - angle)) ∧
    ComputeCotangent (Real.pi / 2) = 0 ∧
    Tendsto ComputeCotangent (nhdsWithin 0 (Set.Ioi 0)) atTop := by
  have hhalf : kHalfPi = Real.pi / 2 := by
    unfold kHalfPi
    ring
  refine ⟨fun angle => by rw [ComputeCotangent, hhalf], ?_, ?_⟩
  · rw [ComputeCotangent, hhalf]
    simp
  · have h1 : Tendsto (fun a : ℝ => Real.pi / 2 - a) (nhdsWithin 0 (Set.Ioi 0))
        (nhdsWithin (Real.pi / 2) (Set.Iio (Real.pi / 2))) := by
      apply tendsto_nhdsWithin_of_tendsto_nhds_of_eventually_within
      · have hb : Tendsto (fun a : ℝ => Real.pi / 2 - a) (nhds 0)
            (nhds (Real.pi / 2 - 0)) := (continuous_const.sub continuous_id).tendsto 0
        simpa using hb.mono_left nhdsWithin_le_nhds
      · filter_upwards [self_mem_nhdsWithin] with a ha
        exact sub_lt_self _ ha
    have h2 := Real.tendsto_tan_pi_div_two.comp h1
    exact h2.congr fun a => by simp [Function.comp, ComputeCotangent, hhalf]

/-- Orthogonality of Eigen's Rodrigues matrix for a unit axis: the transpose
is a left inverse of the matrix. -/
theorem toRotationMatrix_left_inverse (a : Vec3) (θ : ℝ)
    (ha : a.x ^ 2 + a.y ^ 2 + a.z ^ 2 = 1) :
    (toRotationMatrix a θ)ᵀ * toRotationMatrix a θ = 1 := by
  have hc : Real.cos θ ^ 2 + Real.sin θ ^ 2 = 1 := Real.cos_sq_add_sin_sq θ
  funext i j
  fin_cases i <;> fin_cases j
  all_goals
    simp [toRotationMatrix, Matrix.mul_apply, Matrix.transpose_apply,
      Fin.sum_univ_three, Matrix.one_apply, Matrix.vecHead, Matrix.vecTail]
  · linear_combination ((1 - Real.cos θ) ^ 2 * a.x ^ 2 + Real.sin θ ^ 2) * ha +
      (1 - a.x ^ 2) * hc
  · linear_combination ((1 - Real.cos θ) ^ 2 * a.x * a.y) * ha - (a.x * a.y) * hc
  · linear_combination ((1 - Real.cos θ) ^ 2 * a.x * a.z) * ha - (a.x * a.z) * hc
  · linear_combination ((1 - Real.cos θ) ^ 2 * a.y * a.x) * ha - (a.y * a.x) * hc
  · linear_combination ((1 - Real.cos θ) ^ 2 * a.y ^ 2 + Real.sin θ ^ 2) * ha +
      (1 - a.y ^ 2) * hc
  · linear_combination ((1 - Real.cos θ) ^ 2 * a.y * a.z) * ha - (a.y * a.z) * hc
  · linear_combination ((1 - Real.cos θ) ^ 2 * a.z * a.x) * ha - (a.z * a.x) * hc
  · linear_combination ((1 - Real.cos θ) ^ 2 * a.z * a.y) * ha - (a.z * a.y) * hc
  · linear_combination ((1 - Real.cos θ) ^ 2 * a.z ^ 2 + Real.sin θ ^ 2) * ha +
      (1 - a.z ^ 2) * hc

/-- For a unit axis the transpose of the Rodrigues matrix is its inverse. -/
theorem toRotationMatrix_transpose_eq_inv (a : Vec3) (θ : ℝ)
    (ha : a.x ^ 2 + a.y ^ 2 + a.z ^ 2 = 1) :
    (toRotationMatrix a θ)ᵀ = (toRotationMatrix a θ)⁻¹ :=
  (Matrix.inv_eq_left_inv (toRotationMatrix_left_inverse a θ ha)).symm

/-- The upper-left 3×3 block of `ComputeRotation` is exactly the Rodrigues
matrix that was written into it. -/
theorem upperLeft3_ComputeRotation (a : Vec3) (θ : ℝ) :
    upperLeft3 (ComputeRotation a θ) = toRotationMatrix a θ := by
  funext i j
  fin_cases i <;> fin_cases j <;>
    simp [upperLeft3, ComputeRotation, Matrix.vecHead, Matrix.vecTail,
      Fin.castSucc, Fin.castAdd, Fin.castLE]

/-- C4: for every unit-length axis `a` and angle `θ`, the upper-left 3×3
block of `ComputeRotation a θ` is orthogonal (its transpose is a left
inverse and equals its inverse), `ComputeRotation a 0` is the 4×4 identity,
and the fourth row and the fourth column of `ComputeRotation a θ` are those
of the identity matrix, `![0, 0, 0, 1]`. -/
theorem C4_rotation_orthogonal (a : Vec3) (θ : ℝ)
    (ha : a.x ^ 2 + a.y ^ 2 + a.z ^ 2 = 1) :
    (upperLeft3 (ComputeRotation a θ))ᵀ * upperLeft3 (ComputeRotation a θ) = 1 ∧
    (upperLeft3 (ComputeRotation a θ))ᵀ = (upperLeft3 (ComputeRotation a θ))⁻¹ ∧
    ComputeRotation a 0 = 1 ∧
    ComputeRotation a θ 3 = ![0, 0, 0, 1] ∧
    (ComputeRotation a θ)ᵀ 3 = ![0, 0, 0, 1] := by
  refine ⟨?_, ?_, ?_, ?_, ?_⟩
  · rw [upperLeft3_ComputeRotation]
    exact toRotationMatrix_left_inverse a θ ha
  · rw [upperLeft3_ComputeRotation]
    exact toRotationMatrix_transpose_eq_inv a θ ha
  · funext i j
    fin_cases i <;> fin_cases j <;>
      norm_num [ComputeRotation, toRotationMatrix, Matrix.one_apply,
        Matrix.vecHead, Matrix.vecTail, Fin.ext_iff]
  · funext j
    fin_cases j <;> simp [ComputeRotation, Matrix.vecHead, Matrix.vecTail]
  · funext i
    fin_cases i <;>
      simp [ComputeRotation, Matrix.transpose_apply, Matrix.vecHead,
        Matrix.vecTail]

/-- Witness for C4 at the concrete unit axis `(0, 1, 0)` and angle `π/2`. -/
theorem C4_rotation_orthogonal_witness :
    ((0 : ℝ) ^ 2 + 1 ^ 2 + 0 ^ 2 = 1) ∧
    ((upperLeft3 (ComputeRotation ⟨0, 1, 0⟩ (Real.pi / 2)))ᵀ *
        upperLeft3 (ComputeRotation ⟨0, 1, 0⟩ (Real.pi / 2)) = 1 ∧
     (upperLeft3 (ComputeRotation ⟨0, 1, 0⟩ (Real.pi / 2)))ᵀ =
        (upperLeft3 (ComputeRotation ⟨0, 1, 0⟩ (Real.pi / 2)))⁻¹ ∧
     ComputeRotation ⟨0, 1, 0⟩ 0 = 1 ∧
     ComputeRotation ⟨0, 1, 0⟩ (Real.pi / 2) 3 = ![0, 0, 0, 1] ∧
     (ComputeRotation ⟨0, 1, 0⟩ (Real.pi / 2))ᵀ 3 = ![0, 0, 0, 1]) :=
  ⟨by norm_num, C4_rotation_orthogonal ⟨0, 1, 0⟩ (Real.pi / 2) (by norm_num)⟩

/-- C5 counterexample: the axis `(2, 0, 0)` is non-zero but not unit length,
and at angle `π/2` the upper-left 3×3 block of `ComputeRotation` is not
orthogonal (the (0,0) entry of `RᵀR` is 16): `ComputeRotation` does use the
axis unnormalized, so a caller may not skip pre-normalization. -/
theorem C5_counterexample :
    (⟨2, 0, 0⟩ : Vec3) ≠ ⟨0, 0, 0⟩ ∧
    (upperLeft3 (ComputeRotation ⟨2, 0, 0⟩ (Real.pi / 2)))ᵀ *
        upperLeft3 (ComputeRotation ⟨2, 0, 0⟩ (Real.pi / 2)) ≠ 1 := by
  constructor
  · intro h
    have hx := congrArg Vec3.x h
    norm_num at hx
  · intro h
    rw [upperLeft3_ComputeRotation] at h
    have h00 := congrFun (congrFun h 0) 0
    simp [toRotationMatrix, Matrix.mul_apply, Matrix.transpose_apply,
      Fin.sum_univ_three, Matrix.one_apply, Matrix.vecHead, Matrix.vecTail,
      Real.cos_pi_div_two, Real.sin_pi_div_two] at h00
    norm_num at h00

/-- C5 (amended): `ComputeRotation` requires a unit-length axis — it feeds
the axis unnormalized into the Rodrigues formula.  For every non-zero axis,
normalizing it first (exactly what the caller in `RenderScene` does) makes
the upper-left 3×3 block orthogonal for every angle. -/
theorem C5_amended_normalized_axis (a : Vec3) (θ : ℝ)
    (ha : a.x ^ 2 + a.y ^ 2 + a.z ^ 2 ≠ 0) :
    (upperLeft3 (ComputeRotation (Vec3.normalized a) θ))ᵀ *
        upperLeft3 (ComputeRotation (Vec3.normalized a) θ) = 1 ∧
    (upperLeft3 (ComputeRotation (Vec3.normalized a) θ))ᵀ =
        (upperLeft3 (ComputeRotation (Vec3.normalized a) θ))⁻¹ := by
  have hnn : 0 ≤ a.x ^ 2 + a.y ^ 2 + a.z ^ 2 := by positivity
  have hsq : (Vec3.normalized a).x ^ 2 + (Vec3.normalized a).y ^ 2 +
      (Vec3.normalized a).z ^ 2 = 1 := by
    unfold Vec3.normalized
    simp only
    rw [div_pow, div_pow, div_pow, Real.sq_sqrt hnn]
    field_simp
  constructor
  · rw [upperLeft3_ComputeRotation]
    exact toRotationMatrix_left_inverse _ θ hsq
  · rw [upperLeft3_ComputeRotation]
    exact toRotationMatrix_transpose_eq_inv _ θ hsq

/-- Witness for the amended C5 at the non-unit axis `(3, 4, 0)`, angle `π/3`. -/
theorem C5_amended_normalized_axis_witness :
    ((⟨3, 4, 0⟩ : Vec3).x ^ 2 + (⟨3, 4, 0⟩ : Vec3).y ^ 2 +
        (⟨3, 4, 0⟩ : Vec3).z ^ 2 ≠ 0) ∧
    ((upperLeft3 (ComputeRotation (Vec3.normalized ⟨3, 4, 0⟩) (Real.pi / 3)))ᵀ *
        upperLeft3 (ComputeRotation (Vec3.normalized ⟨3, 4, 0⟩) (Real.pi / 3)) = 1 ∧
     (upperLeft3 (ComputeRotation (Vec3.normalized ⟨3, 4, 0⟩) (Real.pi / 3)))ᵀ =
        (upperLeft3 (ComputeRotation (Vec3.normalized ⟨3, 4, 0⟩) (Real.pi / 3)))⁻¹) :=
  ⟨by norm_num, C5_amended_normalized_axis ⟨3, 4, 0⟩ (Real.pi / 3) (by norm_num)⟩

/-- Cotangent of half the FOV derived from a symmetric frustum:
`ComputeCotangent (arctan (t/n)) = n/t`. -/
theorem ComputeCotangent_arctan (t n : ℝ) :
    ComputeCotangent (0.5 * (2 * Real.arctan (t / n))) = n / t := by
  have h1 : kHalfPi - 0.5 * (2 * Real.arctan (t / n)) =
      Real.pi / 2 - Real.arctan (t / n) := by
    unfold kHalfPi
    ring
  rw [ComputeCotangent, h1, Real.tan_pi_div_two_sub, Real.tan_arctan, inv_div]

/-- C2: for every symmetric frustum (`left = -r`, `right = r`, `top = t`,
`bottom = -t`) with `0 < r`, `0 < t`, `0 < n` and `f ≠ n`, the general
six-parameter `ComputeProjectionMatrix` agrees exactly with the FOV form at
the consistently derived parameters `fov = 2·arctan(t/n)` and
`aspect = r/t`. -/
theorem C2_projection_forms_agree (r t n f : ℝ)
    (hr : 0 < r) (ht : 0 < t) (hn : 0 < n) (hf : f ≠ n) :
    ComputeProjectionMatrix (-r) r t (-t) n f =
      ComputeProjectionMatrixFov (2 * Real.arctan (t / n)) (r / t) n f := by
  have hr0 : r ≠ 0 := ne_of_gt hr
  have ht0 : t ≠ 0 := ne_of_gt ht
  funext i j
  fin_cases i <;> fin_cases j <;>
    simp [ComputeProjectionMatrix, ComputeProjectionMatrixFov,
      ComputeCotangent_arctan, Matrix.vecHead, Matrix.vecTail]
  all_goals
    have hfn : f - n ≠ 0 := sub_ne_zero.mpr hf
  all_goals field_simp
  all_goals (first | ring1 | tauto | (ring_nf; tauto))

/-- Witness for C2 at the symmetric frustum `r = t = n = 1`, `f = 2`. -/
theorem C2_projection_forms_agree_witness :
    ComputeProjectionMatrix (-1) 1 1 (-1) 1 2 =
      ComputeProjectionMatrixFov (2 * Real.arctan (1 / 1)) (1 / 1) 1 2 :=
  C2_projection_forms_agree 1 1 1 2 (by norm_num) (by norm_num) (by norm_num)
    (by norm_num)

/-- C3 (amended): with `right ≠ left`, `top ≠ bottom`, `far ≠ near`,
`near > 0` and the additional precondition `far ≠ 0`, the general
`ComputeProjectionMatrix` maps `x ∈ [left, right]`, `y ∈ [bottom, top]` at
`z = -near` into `[-1, 1] × [-1, 1]` after the homogeneous divide, maps
depth `z = -near` to `-1`, and maps depth `z = -far` to `1`.  (`far ≠ 0` is
needed: at `far = 0` the image of the far plane has homogeneous
coordinate 0.) -/
theorem C3_amended_frustum_mapping (l r t b n f x y : ℝ)
    (hrl : r ≠ l) (htb : t ≠ b) (hfn : f ≠ n) (hn : 0 < n) (hf0 : f ≠ 0)
    (hx : x ∈ Set.Icc l r) (hy : y ∈ Set.Icc b t) :
    ndc (ComputeProjectionMatrix l r t b n f) x y (-n) 0 ∈ Set.Icc (-1 : ℝ) 1 ∧
    ndc (ComputeProjectionMatrix l r t b n f) x y (-n) 1 ∈ Set.Icc (-1 : ℝ) 1 ∧
    ndc (ComputeProjectionMatrix l r t b n f) x y (-n) 2 = -1 ∧
    ndc (ComputeProjectionMatrix l r t b n f) x y (-f) 2 = 1 := by
  obtain ⟨hxl, hxr⟩ := hx
  obtain ⟨hyb, hyt⟩ := hy
  have hlr : l < r := lt_of_le_of_ne (hxl.trans hxr) (Ne.symm hrl)
  have hbt : b < t := lt_of_le_of_ne (hyb.trans hyt) (Ne.symm htb)
  have hrl' : (0 : ℝ) < r - l := sub_pos.mpr hlr
  have hbt' : (0 : ℝ) < t - b := sub_pos.mpr hbt
  have hrl0 : r - l ≠ 0 := ne_of_gt hrl'
  have hbt0 : t - b ≠ 0 := ne_of_gt hbt'
  have hn0 : n ≠ 0 := ne_of_gt hn
  have hfn0 : f - n ≠ 0 := sub_ne_zero.mpr hfn
  have h0 : ndc (ComputeProjectionMatrix l r t b n f) x y (-n) 0 =
      (2 * x - (r + l)) / (r - l) := by
    unfold ndc clipCoords
    simp [ComputeProjectionMatrix, Matrix.mulVec, Matrix.dotProduct,
      Fin.sum_univ_four, Matrix.vecHead, Matrix.vecTail]
    field_simp
    ring
  have h1 : ndc (ComputeProjectionMatrix l r t b n f) x y (-n) 1 =
      (2 * y - (t + b)) / (t - b) := by
    unfold ndc clipCoords
    simp [ComputeProjectionMatrix, Matrix.mulVec, Matrix.dotProduct,
      Fin.sum_univ_four, Matrix.vecHead, Matrix.vecTail]
    field_simp
    ring
  have h2 : ndc (ComputeProjectionMatrix l r t b n f) x y (-n) 2 = -1 := by
    unfold ndc clipCoords
    simp [ComputeProjectionMatrix, Matrix.mulVec, Matrix.dotProduct,
      Fin.sum_univ_four, Matrix.vecHead, Matrix.vecTail]
    field_simp
    ring
  have h3 : ndc (ComputeProjectionMatrix l r t b n f) x y (-f) 2 = 1 := by
    unfold ndc clipCoords
    simp [ComputeProjectionMatrix, Matrix.mulVec, Matrix.dotProduct,
      Fin.sum_univ_four, Matrix.vecHead, Matrix.vecTail]
    field_simp
    ring
  refine ⟨?_, ?_, h2, h3⟩
  · rw [h0, Set.mem_Icc]
    constructor
    · rw [le_div_iff hrl']
      linarith
    · rw [div_le_one hrl']
      linarith
  · rw [h1, Set.mem_Icc]
    constructor
    · rw [le_div_iff hbt']
      linarith
    · rw [div_le_one hbt']
      linarith

/-- C3 counterexample: with `left = -1`, `right = 1`, `top = 1`,
`bottom = -1`, `near = 1`, `far = 0`, all four preconditions stated by the
claim hold (`right ≠ left`, `top ≠ bottom`, `far ≠ near`, `near > 0`), yet
the depth `z = -far` is not mapped to `1`: the image of a far-plane point
has homogeneous coordinate 0, so the divide does not produce 1. -/
theorem C3_counterexample :
    ((1 : ℝ) ≠ -1) ∧ ((1 : ℝ) ≠ -1) ∧ ((0 : ℝ) ≠ 1) ∧ (0 < (1 : ℝ)) ∧
    ndc (ComputeProjectionMatrix (-1) 1 1 (-1) 1 0) 0 0 (-(0 : ℝ)) 2 ≠ 1 := by
  refine ⟨by norm_num, by norm_num, by norm_num, by norm_num, ?_⟩
  unfold ndc clipCoords
  norm_num [ComputeProjectionMatrix, Matrix.mulVec, Matrix.dotProduct,
    Fin.sum_univ_four, Matrix.vecHead, Matrix.vecTail]

/-- Witness for the amended C3 at the frustum `(-1, 1, 1, -1, 1, 2)` and the
view-space point `x = y = 0`. -/
theorem C3_amended_frustum_mapping_witness :
    ((0 : ℝ) ∈ Set.Icc (-1 : ℝ) 1) ∧
    (ndc (ComputeProjectionMatrix (-1) 1 1 (-1) 1 2) 0 0 (-1) 0 ∈
        Set.Icc (-1 : ℝ) 1 ∧
     ndc (ComputeProjectionMatrix (-1) 1 1 (-1) 1 2) 0 0 (-1) 1 ∈
        Set.Icc (-1 : ℝ) 1 ∧
     ndc (ComputeProjectionMatrix (-1) 1 1 (-1) 1 2) 0 0 (-1) 2 = -1 ∧
     ndc (ComputeProjectionMatrix (-1) 1 1 (-1) 1 2) 0 0 (-2) 2 = 1) :=
  ⟨by norm_num, C3_amended_frustum_mapping (-1) 1 1 (-1) 1 2 0 0 (by norm_num)
    (by norm_num) (by norm_num) (by norm_num) (by norm_num)
    (by norm_num [Set.mem_Icc]) (by norm_num [Set.mem_Icc])⟩
